import Mathlib

/-!
Verification of `in_place_once_cell`: a container holding a value that can be
mutated in place exactly once, after which it is frozen.

Part 1 embeds the single-thread container `InPlaceOnceCell` from
`src/src/cell.rs`.  The Rust cell is

  pub struct InPlaceOnceCell<T> { value: UnsafeCell<T>, is_mutated: Cell<bool> }

A mutation closure `FnOnce(&mut T) -> Result<(), E>` mutates the value in place
and reports success or failure; we model it as a function `T → T × Option E`
returning the (possibly partially) mutated value together with `none` on
success or `some e` on failure.  An infallible closure `FnOnce(&mut T)` is
modelled as `T → T`.
-/

namespace InPlaceOnce

/-- Rust's `enum Never {}` from `cell.rs` (an uninhabited error type). -/
inductive Never : Type

/-- The single-thread container from `src/src/cell.rs`: an owned value slot
plus the `is_mutated` latch. -/
structure InPlaceOnceCell (T : Type) where
  value : T
  is_mutated : Bool
deriving DecidableEq

namespace InPlaceOnceCell

variable {T E : Type}

/-- Rust `InPlaceOnceCell::new`: initial value, latch unset. -/
def new (value : T) : InPlaceOnceCell T :=
  { value := value, is_mutated := false }

/-- Rust `InPlaceOnceCell::get`: `Some` of the value iff the latch is set. -/
def get (c : InPlaceOnceCell T) : Option T :=
  if c.is_mutated then some c.value else none

/-- Rust `InPlaceOnceCell::get_mut`: `Some` of the value iff the latch is set
(value-level semantics of the `&mut T` reference). -/
def get_mut (c : InPlaceOnceCell T) : Option T :=
  if c.is_mutated then some c.value else none

/-- Rust `InPlaceOnceCell::try_mutate`: run `f` on the stored value; on success set
the latch; on failure keep the (possibly partially mutated) value that `f`
left behind and leave the latch as it was.  Returns the updated cell and the
error, if any. -/
def try_mutate (c : InPlaceOnceCell T) (f : T → T × Option E) :
    InPlaceOnceCell T × Option E :=
  match f c.value with
  | (v, some e) => ({ c with value := v }, some e)
  | (v, none) => ({ value := v, is_mutated := true }, none)

/-- Rust `InPlaceOnceCell::get_or_try_mutate`: return the frozen value if the latch
is set, else run `try_mutate` and on success return the now-frozen value.
Returns the updated cell together with the `Result`. -/
def get_or_try_mutate (c : InPlaceOnceCell T) (f : T → T × Option E) :
    InPlaceOnceCell T × Except E T :=
  match c.get with
  | some v => (c, Except.ok v)
  | none =>
    match c.try_mutate f with
    | (c, some e) => (c, Except.error e)
    | (c, none) => (c, Except.ok c.value)

/-- Rust `InPlaceOnceCell::get_mut_or_try_mutate`: like `get_or_try_mutate` but
checks `is_mutated` directly and returns the value through
`get_mut_unchecked`. -/
def get_mut_or_try_mutate (c : InPlaceOnceCell T) (f : T → T × Option E) :
    InPlaceOnceCell T × Except E T :=
  if c.is_mutated then (c, Except.ok c.value)
  else
    match c.try_mutate f with
    | (c, some e) => (c, Except.error e)
    | (c, none) => (c, Except.ok c.value)

/-- Rust `InPlaceOnceCell::get_or_mutate`: wrap the infallible closure into a
fallible one with the uninhabited error `Never`, run `get_or_try_mutate`
(which cannot fail), then read the cell through `get_unchecked`. -/
def get_or_mutate (c : InPlaceOnceCell T) (f : T → T) : InPlaceOnceCell T × T :=
  match c.get_or_try_mutate (fun v => (f v, (none : Option Never))) with
  | (c, _) => (c, c.value)

/-- Rust `InPlaceOnceCell::get_mut_or_mutate`: same body as `get_or_mutate` (the
Rust source also calls `get_or_try_mutate`), then reads the cell through
`get_mut_unchecked`. -/
def get_mut_or_mutate (c : InPlaceOnceCell T) (f : T → T) :
    InPlaceOnceCell T × T :=
  match c.get_or_try_mutate (fun v => (f v, (none : Option Never))) with
  | (c, _) => (c, c.value)

/-- Rust `InPlaceOnceCell::into_inner`: consume the cell, returning the stored
value unconditionally. -/
def into_inner (c : InPlaceOnceCell T) : T :=
  c.value

/-- Rust `impl PartialEq for InPlaceOnceCell`: `self.get() == other.get()`. -/
def eq [BEq T] (a b : InPlaceOnceCell T) : Bool :=
  a.get == b.get

/-!
Instrumented copies of the mutate-family operations.  They are the same code
as the operations above, except that each also returns the number of times the
supplied closure is invoked, so that "exactly once" and "never invoked" claims
can be stated.  Consistency lemmas below show each projects to the plain
operation.
-/

/-- Instrumented `try_mutate` with the closure-invocation count: the closure
is invoked exactly once, unconditionally. -/
def try_mutate_invoked (c : InPlaceOnceCell T) (f : T → T × Option E) :
    (InPlaceOnceCell T × Option E) × Nat :=
  (c.try_mutate f, 1)

/-- Instrumented `get_or_try_mutate`: zero
invocations on the fast path, otherwise the invocations of `try_mutate`. -/
def get_or_try_mutate_invoked (c : InPlaceOnceCell T) (f : T → T × Option E) :
    (InPlaceOnceCell T × Except E T) × Nat :=
  match c.get with
  | some v => ((c, Except.ok v), 0)
  | none =>
    match c.try_mutate_invoked f with
    | ((c, some e), n) => ((c, Except.error e), n)
    | ((c, none), n) => ((c, Except.ok c.value), n)

/-- Instrumented `get_mut_or_try_mutate` with the closure-invocation count. -/
def get_mut_or_try_mutate_invoked (c : InPlaceOnceCell T)
    (f : T → T × Option E) : (InPlaceOnceCell T × Except E T) × Nat :=
  if c.is_mutated then ((c, Except.ok c.value), 0)
  else
    match c.try_mutate_invoked f with
    | ((c, some e), n) => ((c, Except.error e), n)
    | ((c, none), n) => ((c, Except.ok c.value), n)

/-- Instrumented `get_or_mutate` with the closure-invocation count. -/
def get_or_mutate_invoked (c : InPlaceOnceCell T) (f : T → T) :
    (InPlaceOnceCell T × T) × Nat :=
  match c.get_or_try_mutate_invoked (fun v => (f v, (none : Option Never))) with
  | ((c, _), n) => ((c, c.value), n)

/-- Instrumented `get_mut_or_mutate` with the closure-invocation count. -/
def get_mut_or_mutate_invoked (c : InPlaceOnceCell T) (f : T → T) :
    (InPlaceOnceCell T × T) × Nat :=
  match c.get_or_try_mutate_invoked (fun v => (f v, (none : Option Never))) with
  | ((c, _), n) => ((c, c.value), n)

end InPlaceOnceCell

/-!
Trace semantics for the single-thread cell: the safe non-consuming operations
a client can perform, and a runner that records how many mutation closures ran
to completion and the value frozen by the completing closure.  This is what
the spec's reachable-state invariants quantify over.
-/

/-- One safe non-consuming call on a cell. -/
inductive CellOp (T E : Type) where
  | callGet
  | callGetMut
  | callGetOrMutate (f : T → T)
  | callGetMutOrMutate (f : T → T)
  | callGetOrTryMutate (f : T → T × Option E)
  | callGetMutOrTryMutate (f : T → T × Option E)

namespace CellOp

variable {T E : Type}

/-- The cell resulting from one call. -/
def apply (c : InPlaceOnceCell T) : CellOp T E → InPlaceOnceCell T
  | callGet => c
  | callGetMut => c
  | callGetOrMutate f => (c.get_or_mutate f).1
  | callGetMutOrMutate f => (c.get_mut_or_mutate f).1
  | callGetOrTryMutate f => (c.get_or_try_mutate f).1
  | callGetMutOrTryMutate f => (c.get_mut_or_try_mutate f).1

/-- How many mutation closures ran to completion during one call (the
closure-invocation count of the call, minus invocations that returned an
error). -/
def completions (c : InPlaceOnceCell T) : CellOp T E → Nat
  | callGet => 0
  | callGetMut => 0
  | callGetOrMutate _ => if c.is_mutated then 0 else 1
  | callGetMutOrMutate _ => if c.is_mutated then 0 else 1
  | callGetOrTryMutate f =>
    if c.is_mutated then 0 else
      match (f c.value).2 with
      | some _ => 0
      | none => 1
  | callGetMutOrTryMutate f =>
    if c.is_mutated then 0 else
      match (f c.value).2 with
      | some _ => 0
      | none => 1

end CellOp

/-- History of a run: the total number of closures that ran to completion and
the value produced by the completing closure, if any. -/
structure CellHist (T : Type) where
  cell : InPlaceOnceCell T
  completed : Nat
  frozen : Option T
deriving DecidableEq

variable {T E : Type}

/-- One call, tracking completion history. -/
def stepHist (h : CellHist T) (op : CellOp T E) : CellHist T :=
  let c := op.apply h.cell
  let n := op.completions h.cell
  { cell := c
    completed := h.completed + n
    frozen := if n = 0 then h.frozen else some c.value }

/-- Run a list of calls from a starting history. -/
def runHist (h : CellHist T) : List (CellOp T E) → CellHist T
  | [] => h
  | op :: ops => runHist (stepHist h op) ops

/-- The history of a freshly constructed cell. -/
def initHist (v : T) : CellHist T :=
  { cell := InPlaceOnceCell.new v, completed := 0, frozen := none }

/-- Invariant tying the latch to the completion history: an unmutated cell has
seen no completed closure and no frozen value; a mutated cell has seen exactly
one completed closure whose result is the current value. -/
def HistInv (h : CellHist T) : Prop :=
  (h.cell.is_mutated = false ∧ h.completed = 0 ∧ h.frozen = none) ∨
  (h.cell.is_mutated = true ∧ h.completed = 1 ∧ h.frozen = some h.cell.value)

/-!
Part 2: the shared-thread container `InPlaceOnceLock` from `src/src/lock.rs`.
The source file declares the struct — a `std::sync::Once` election barrier
plus an `UnsafeCell` value slot — and `new`, but the mutate operations
exercised by `src/tests/lock.rs` are not present under `src/`, so the
concurrent behaviour of `get_or_mutate` is modelled from the spec as an
interleaving transition system.
-/

/-- Modelled from the spec: the latch states of the shared container's
election barrier, "Unmutated → Electing → Mutated" with a terminal
`poisoned` state entered only when the elected closure panics.  The closures
modelled here are total Lean functions, which cannot panic, so `poisoned` is
never produced by a step. -/
inductive LockState where
  | unmutated
  | electing
  | mutated
  | poisoned
deriving DecidableEq

/-- Modelled from the spec: what one caller of `get_or_mutate` is doing.
`start` has not yet reached the barrier; `winner` won the election and is
about to run its closure; `waiting` lost the election and is blocked until it
resolves; `done ret` has returned `ret`. -/
inductive ThreadPhase (T : Type) where
  | start
  | winner
  | waiting
  | done (ret : T)
deriving DecidableEq

/-- Modelled from the spec: the global state of one `InPlaceOnceLock` shared
by `n` calling threads — the barrier's latch, the value slot, each thread's
phase, and for each thread whether its closure has run (bookkeeping for the
exactly-once property). -/
structure LockSys (n : Nat) (T : Type) where
  latch : LockState
  value : T
  threads : Fin n → ThreadPhase T
  ran : Fin n → Bool

/-- Modelled from the spec: the initial state — latch `unmutated`, slot
holding the initial value, every thread about to call `get_or_mutate`. -/
def LockSys.init (n : Nat) (v : T) : LockSys n T :=
  { latch := LockState.unmutated
    value := v
    threads := fun _ => ThreadPhase.start
    ran := fun _ => false }

/-- Modelled from the spec: one interleaving step of `n` threads each calling
`get_or_mutate` with its own closure `f i` on one shared lock.  A `start`
thread that finds the latch `unmutated` is elected and moves the latch to
`electing`; a `start` thread that finds `electing` blocks; a `start` thread
that finds `mutated` returns the frozen value; the winner runs its closure,
publishes the result and moves the latch to `mutated`; a blocked thread wakes
once the latch is `mutated` and returns the frozen value. -/
inductive LockStep {n : Nat} (f : Fin n → T → T) :
    LockSys n T → LockSys n T → Prop where
  | elect (s : LockSys n T) (i : Fin n)
      (hi : s.threads i = ThreadPhase.start)
      (hl : s.latch = LockState.unmutated) :
      LockStep f s
        { latch := LockState.electing
          value := s.value
          threads := Function.update s.threads i ThreadPhase.winner
          ran := s.ran }
  | lose (s : LockSys n T) (i : Fin n)
      (hi : s.threads i = ThreadPhase.start)
      (hl : s.latch = LockState.electing) :
      LockStep f s
        { s with threads := Function.update s.threads i ThreadPhase.waiting }
  | fastPath (s : LockSys n T) (i : Fin n)
      (hi : s.threads i = ThreadPhase.start)
      (hl : s.latch = LockState.mutated) :
      LockStep f s
        { s with
          threads :=
            Function.update s.threads i (ThreadPhase.done s.value) }
  | finish (s : LockSys n T) (i : Fin n)
      (hi : s.threads i = ThreadPhase.winner) :
      LockStep f s
        { latch := LockState.mutated
          value := f i s.value
          threads :=
            Function.update s.threads i (ThreadPhase.done (f i s.value))
          ran := Function.update s.ran i true }
  | wake (s : LockSys n T) (i : Fin n)
      (hi : s.threads i = ThreadPhase.waiting)
      (hl : s.latch = LockState.mutated) :
      LockStep f s
        { s with
          threads :=
            Function.update s.threads i (ThreadPhase.done s.value) }

/-- A state reachable from `s0` by interleaving steps. -/
def LockReachable {n : Nat} (f : Fin n → T → T) (s0 s : LockSys n T) : Prop :=
  Relation.ReflTransGen (LockStep f) s0 s

/-- Inductive invariant of the election protocol, for a lock started at value
`v`: while `unmutated`, nothing has happened; while `electing`, exactly one
winner exists, no closure has run, and nobody has returned; once `mutated`,
exactly one closure ran, the value is that closure's result applied to `v`,
and every returned thread returned the frozen value; `poisoned` is
unreachable. -/
def LockInv {n : Nat} (f : Fin n → T → T) (v : T) (s : LockSys n T) : Prop :=
  (s.latch = LockState.unmutated →
    s.value = v ∧ (∀ i, s.threads i = ThreadPhase.start) ∧
      ∀ i, s.ran i = false) ∧
  (s.latch = LockState.electing →
    s.value = v ∧ (∀ i, s.ran i = false) ∧
      ∃ i, s.threads i = ThreadPhase.winner ∧
        ∀ j, j ≠ i →
          (s.threads j = ThreadPhase.start ∨
            s.threads j = ThreadPhase.waiting)) ∧
  (s.latch = LockState.mutated →
    ∃ i, s.value = f i v ∧ (∀ j, s.ran j = true ↔ j = i) ∧
      ∀ j, s.threads j = ThreadPhase.start ∨
        s.threads j = ThreadPhase.waiting ∨
        s.threads j = ThreadPhase.done s.value) ∧
  s.latch ≠ LockState.poisoned

/-!
A concrete two-thread run of the lock protocol: thread 0 wins the election,
thread 1 blocks, thread 0 squares the value 34 and freezes 1156, thread 1
wakes and returns the frozen value.
-/

/-- Both demo threads square the value. -/
def lockSquare : Fin 2 → Nat → Nat := fun _ x => x * x

/-- Demo state after thread 0 wins the election. -/
def lockDemo1 : LockSys 2 Nat :=
  { latch := LockState.electing
    value := (LockSys.init 2 34).value
    threads :=
      Function.update (LockSys.init 2 34).threads 0 ThreadPhase.winner
    ran := (LockSys.init 2 34).ran }

/-- Demo state after thread 1 loses the election and blocks. -/
def lockDemo2 : LockSys 2 Nat :=
  { lockDemo1 with
    threads := Function.update lockDemo1.threads 1 ThreadPhase.waiting }

/-- Demo state after thread 0 squares the value and freezes it. -/
def lockDemo3 : LockSys 2 Nat :=
  { latch := LockState.mutated
    value := lockSquare 0 lockDemo2.value
    threads :=
      Function.update lockDemo2.threads 0
        (ThreadPhase.done (lockSquare 0 lockDemo2.value))
    ran := Function.update lockDemo2.ran 0 true }

/-- Demo state after thread 1 wakes with the frozen value. -/
def lockDemo4 : LockSys 2 Nat :=
  { lockDemo3 with
    threads :=
      Function.update lockDemo3.threads 1
        (ThreadPhase.done lockDemo3.value) }

/-!
Basic lemmas about the cell operations.
-/

namespace InPlaceOnceCell

theorem get_of_mutated {c : InPlaceOnceCell T} (h : c.is_mutated = true) :
    c.get = some c.value := by
  simp [get, h]

theorem get_of_unmutated {c : InPlaceOnceCell T} (h : c.is_mutated = false) :
    c.get = none := by
  simp [get, h]

theorem try_mutate_ok {c : InPlaceOnceCell T} {f : T → T × Option E} {v : T}
    (hf : f c.value = (v, none)) :
    c.try_mutate f = ({ value := v, is_mutated := true }, none) := by
  simp [try_mutate, hf]

theorem try_mutate_err {c : InPlaceOnceCell T} {f : T → T × Option E} {v : T}
    {e : E} (hf : f c.value = (v, some e)) :
    c.try_mutate f = ({ c with value := v }, some e) := by
  simp [try_mutate, hf]

theorem get_or_try_mutate_of_mutated {c : InPlaceOnceCell T}
    {f : T → T × Option E} (h : c.is_mutated = true) :
    c.get_or_try_mutate f = (c, Except.ok c.value) := by
  simp [get_or_try_mutate, get_of_mutated h]

theorem get_or_try_mutate_ok {c : InPlaceOnceCell T} {f : T → T × Option E}
    {v : T} (h : c.is_mutated = false) (hf : f c.value = (v, none)) :
    c.get_or_try_mutate f =
      ({ value := v, is_mutated := true }, Except.ok v) := by
  simp [get_or_try_mutate, get_of_unmutated h, try_mutate_ok hf]

theorem get_or_try_mutate_err {c : InPlaceOnceCell T} {f : T → T × Option E}
    {v : T} {e : E} (h : c.is_mutated = false) (hf : f c.value = (v, some e)) :
    c.get_or_try_mutate f =
      ({ value := v, is_mutated := false }, Except.error e) := by
  have : ({ c with value := v } : InPlaceOnceCell T) =
      { value := v, is_mutated := false } := by
    cases c; simp_all
  simp [get_or_try_mutate, get_of_unmutated h, try_mutate_err hf, this]

theorem get_mut_or_try_mutate_eq_get_or_try_mutate (c : InPlaceOnceCell T)
    (f : T → T × Option E) :
    c.get_mut_or_try_mutate f = c.get_or_try_mutate f := by
  cases hm : c.is_mutated
  · simp [get_mut_or_try_mutate, get_or_try_mutate, get_of_unmutated hm, hm]
  · simp [get_mut_or_try_mutate, get_or_try_mutate, get_of_mutated hm, hm]

theorem get_or_mutate_of_mutated {c : InPlaceOnceCell T} {f : T → T}
    (h : c.is_mutated = true) : c.get_or_mutate f = (c, c.value) := by
  simp [get_or_mutate, get_or_try_mutate_of_mutated h]

theorem get_or_mutate_of_unmutated {c : InPlaceOnceCell T} {f : T → T}
    (h : c.is_mutated = false) :
    c.get_or_mutate f =
      ({ value := f c.value, is_mutated := true }, f c.value) := by
  have hok := @get_or_try_mutate_ok T Never c
    (fun v => (f v, (none : Option Never))) (f c.value) h rfl
  simp [get_or_mutate, hok]

theorem get_or_try_mutate_invoked_fst (c : InPlaceOnceCell T)
    (f : T → T × Option E) :
    (c.get_or_try_mutate_invoked f).1 = c.get_or_try_mutate f := by
  cases hm : c.is_mutated
  · rcases hfv : f c.value with ⟨v, e⟩
    cases e
    · simp [get_or_try_mutate_invoked, try_mutate_invoked,
        get_of_unmutated hm, get_or_try_mutate_ok hm hfv, try_mutate_ok hfv]
    · simp [get_or_try_mutate_invoked, try_mutate_invoked,
        get_of_unmutated hm, get_or_try_mutate_err hm hfv, try_mutate_err hfv,
        hm]
  · simp [get_or_try_mutate_invoked, get_of_mutated hm,
      get_or_try_mutate_of_mutated hm]

theorem get_or_try_mutate_invoked_snd (c : InPlaceOnceCell T)
    (f : T → T × Option E) :
    (c.get_or_try_mutate_invoked f).2 = if c.is_mutated then 0 else 1 := by
  cases hm : c.is_mutated
  · rcases hfv : f c.value with ⟨v, e⟩
    cases e
    · simp [get_or_try_mutate_invoked, try_mutate_invoked,
        get_of_unmutated hm, try_mutate_ok hfv]
    · simp [get_or_try_mutate_invoked, try_mutate_invoked,
        get_of_unmutated hm, try_mutate_err hfv]
  · simp [get_or_try_mutate_invoked, get_of_mutated hm]

theorem get_or_mutate_invoked_fst (c : InPlaceOnceCell T) (f : T → T) :
    (c.get_or_mutate_invoked f).1 = c.get_or_mutate f := by
  simp only [get_or_mutate_invoked, get_or_mutate]
  rcases h : c.get_or_try_mutate_invoked (fun v => (f v, (none : Option Never)))
    with ⟨⟨c1, r⟩, n⟩
  have := get_or_try_mutate_invoked_fst c
    (fun v => (f v, (none : Option Never)))
  rw [h] at this
  rw [← this]

theorem get_or_mutate_invoked_snd (c : InPlaceOnceCell T) (f : T → T) :
    (c.get_or_mutate_invoked f).2 = if c.is_mutated then 0 else 1 := by
  simp only [get_or_mutate_invoked]
  rcases h : c.get_or_try_mutate_invoked (fun v => (f v, (none : Option Never)))
    with ⟨⟨c1, r⟩, n⟩
  have := get_or_try_mutate_invoked_snd c
    (fun v => (f v, (none : Option Never)))
  rw [h] at this
  simpa using this

theorem get_mut_or_mutate_eq_get_or_mutate (c : InPlaceOnceCell T)
    (f : T → T) : c.get_mut_or_mutate f = c.get_or_mutate f := rfl

end InPlaceOnceCell

/-!
Lemmas about the trace semantics.
-/

namespace CellOp

theorem apply_of_mutated {c : InPlaceOnceCell T} (op : CellOp T E)
    (h : c.is_mutated = true) : op.apply c = c := by
  cases op with
  | callGet => rfl
  | callGetMut => rfl
  | callGetOrMutate f =>
    simp [apply, InPlaceOnceCell.get_or_mutate_of_mutated h]
  | callGetMutOrMutate f =>
    simp [apply, InPlaceOnceCell.get_mut_or_mutate_eq_get_or_mutate,
      InPlaceOnceCell.get_or_mutate_of_mutated h]
  | callGetOrTryMutate f =>
    simp [apply, InPlaceOnceCell.get_or_try_mutate_of_mutated h]
  | callGetMutOrTryMutate f =>
    simp [apply, InPlaceOnceCell.get_mut_or_try_mutate_eq_get_or_try_mutate,
      InPlaceOnceCell.get_or_try_mutate_of_mutated h]

theorem completions_of_mutated {c : InPlaceOnceCell T} (op : CellOp T E)
    (h : c.is_mutated = true) : op.completions c = 0 := by
  cases op <;> simp [completions, h]

theorem apply_latch (c : InPlaceOnceCell T) (op : CellOp T E) :
    (op.apply c).is_mutated = c.is_mutated ∨
      ((op.apply c).is_mutated = true ∧ c.is_mutated = false) := by
  cases hm : c.is_mutated
  · cases op with
    | callGet => exact Or.inl hm
    | callGetMut => exact Or.inl hm
    | callGetOrMutate f =>
      refine Or.inr ⟨?_, rfl⟩
      simp [apply, InPlaceOnceCell.get_or_mutate_of_unmutated hm]
    | callGetMutOrMutate f =>
      refine Or.inr ⟨?_, rfl⟩
      simp [apply, InPlaceOnceCell.get_mut_or_mutate_eq_get_or_mutate,
        InPlaceOnceCell.get_or_mutate_of_unmutated hm]
    | callGetOrTryMutate f =>
      rcases hfv : f c.value with ⟨v, e⟩
      cases e with
      | none =>
        refine Or.inr ⟨?_, rfl⟩
        simp [apply, InPlaceOnceCell.get_or_try_mutate_ok hm hfv]
      | some e =>
        refine Or.inl ?_
        simp [apply, InPlaceOnceCell.get_or_try_mutate_err hm hfv, hm]
    | callGetMutOrTryMutate f =>
      rcases hfv : f c.value with ⟨v, e⟩
      cases e with
      | none =>
        refine Or.inr ⟨?_, rfl⟩
        simp [apply, InPlaceOnceCell.get_mut_or_try_mutate_eq_get_or_try_mutate,
          InPlaceOnceCell.get_or_try_mutate_ok hm hfv]
      | some e =>
        refine Or.inl ?_
        simp [apply, InPlaceOnceCell.get_mut_or_try_mutate_eq_get_or_try_mutate,
          InPlaceOnceCell.get_or_try_mutate_err hm hfv, hm]
  · rw [apply_of_mutated op hm]
    exact Or.inl hm

end CellOp

theorem histInv_init (v : T) : HistInv (initHist v) :=
  Or.inl ⟨rfl, rfl, rfl⟩

theorem histInv_step {h : CellHist T} (op : CellOp T E) (hi : HistInv h) :
    HistInv (stepHist h op) := by
  rcases hi with ⟨hm, hc, hf⟩ | ⟨hm, hc, hf⟩
  · cases op with
    | callGet => exact Or.inl ⟨hm, hc, hf⟩
    | callGetMut => exact Or.inl ⟨hm, hc, hf⟩
    | callGetOrMutate f =>
      refine Or.inr ?_
      simp [stepHist, CellOp.apply, CellOp.completions, hm, hc, hf,
        InPlaceOnceCell.get_or_mutate_of_unmutated hm]
    | callGetMutOrMutate f =>
      refine Or.inr ?_
      simp [stepHist, CellOp.apply, CellOp.completions, hm, hc, hf,
        InPlaceOnceCell.get_mut_or_mutate_eq_get_or_mutate,
        InPlaceOnceCell.get_or_mutate_of_unmutated hm]
    | callGetOrTryMutate f =>
      rcases hfv : f h.cell.value with ⟨v, e⟩
      cases e with
      | none =>
        refine Or.inr ?_
        simp [stepHist, CellOp.apply, CellOp.completions, hm, hc, hf, hfv,
          InPlaceOnceCell.get_or_try_mutate_ok hm hfv]
      | some e =>
        refine Or.inl ?_
        simp [stepHist, CellOp.apply, CellOp.completions, hm, hc, hf, hfv,
          InPlaceOnceCell.get_or_try_mutate_err hm hfv]
    | callGetMutOrTryMutate f =>
      rcases hfv : f h.cell.value with ⟨v, e⟩
      cases e with
      | none =>
        refine Or.inr ?_
        simp [stepHist, CellOp.apply, CellOp.completions, hm, hc, hf, hfv,
          InPlaceOnceCell.get_mut_or_try_mutate_eq_get_or_try_mutate,
          InPlaceOnceCell.get_or_try_mutate_ok hm hfv]
      | some e =>
        refine Or.inl ?_
        simp [stepHist, CellOp.apply, CellOp.completions, hm, hc, hf, hfv,
          InPlaceOnceCell.get_mut_or_try_mutate_eq_get_or_try_mutate,
          InPlaceOnceCell.get_or_try_mutate_err hm hfv]
  · refine Or.inr ?_
    simp [stepHist, CellOp.apply_of_mutated op hm,
      CellOp.completions_of_mutated op hm, hm, hc, hf]

theorem histInv_run {h : CellHist T} (ops : List (CellOp T E))
    (hi : HistInv h) : HistInv (runHist h ops) := by
  induction ops generalizing h with
  | nil => exact hi
  | cons op ops ih => exact ih (histInv_step op hi)

theorem run_latch_mono {h : CellHist T} (ops : List (CellOp T E))
    (hm : h.cell.is_mutated = true) :
    (runHist h ops).cell.is_mutated = true := by
  induction ops generalizing h with
  | nil => exact hm
  | cons op ops ih =>
    refine ih ?_
    simp [stepHist, CellOp.apply_of_mutated op hm, hm]

/-!
Lemmas about the shared-lock election protocol.
-/

theorem lockInv_init (n : Nat) (f : Fin n → T → T) (v : T) :
    LockInv f v (LockSys.init n v) := by
  simp [LockInv, LockSys.init]

theorem lockInv_step {n : Nat} {f : Fin n → T → T} {v : T}
    {s s2 : LockSys n T} (hs : LockInv f v s) (h : LockStep f s s2) :
    LockInv f v s2 := by
  obtain ⟨hu, he, hm, hp⟩ := hs
  cases h with
  | elect i hi hl =>
    obtain ⟨hv, hstart, hran⟩ := hu hl
    refine ⟨fun h2 => LockState.noConfusion h2, ?_,
      fun h2 => LockState.noConfusion h2, fun h2 => LockState.noConfusion h2⟩
    intro _
    refine ⟨hv, hran, i, ?_, ?_⟩
    · simp [Function.update_same]
    · intro j hj
      simp only [Function.update_noteq hj]
      exact Or.inl (hstart j)
  | lose i hi hl =>
    obtain ⟨hv, hran, i0, hw, hrest⟩ := he hl
    have hne : i ≠ i0 := by
      intro hii
      rw [hii, hw] at hi
      exact ThreadPhase.noConfusion hi
    refine ⟨fun h2 => absurd (hl.symm.trans h2) (by decide), ?_,
      fun h2 => absurd (hl.symm.trans h2) (by decide),
      fun h2 => absurd (hl.symm.trans h2) (by decide)⟩
    intro _
    refine ⟨hv, hran, i0, ?_, ?_⟩
    · simp only [Function.update_noteq (Ne.symm hne)]
      exact hw
    · intro j hj
      by_cases hji : j = i
      · subst hji
        simp only [Function.update_same]
        exact Or.inr trivial
      · simp only [Function.update_noteq hji]
        exact hrest j hj
  | fastPath i hi hl =>
    obtain ⟨i0, hvv, hran, hphase⟩ := hm hl
    refine ⟨fun h2 => absurd (hl.symm.trans h2) (by decide),
      fun h2 => absurd (hl.symm.trans h2) (by decide), ?_,
      fun h2 => absurd (hl.symm.trans h2) (by decide)⟩
    intro _
    refine ⟨i0, hvv, hran, ?_⟩
    intro j
    by_cases hji : j = i
    · subst hji
      simp only [Function.update_same]
      exact Or.inr (Or.inr trivial)
    · simp only [Function.update_noteq hji]
      exact hphase j
  | finish i hi =>
    have hl : s.latch = LockState.electing := by
      cases hl : s.latch with
      | unmutated =>
        have := (hu hl).2.1 i
        rw [hi] at this
        exact ThreadPhase.noConfusion this
      | electing => rfl
      | mutated =>
        obtain ⟨i0, hvv0, hran0, hph0⟩ := hm hl
        rcases hph0 i with h2 | h2 | h2 <;> rw [hi] at h2 <;>
          exact ThreadPhase.noConfusion h2
      | poisoned => exact absurd hl hp
    obtain ⟨hv, hran, i0, hw, hrest⟩ := he hl
    have hii : i = i0 := by
      by_contra hne
      rcases hrest i hne with h2 | h2 <;> rw [hi] at h2 <;>
        exact ThreadPhase.noConfusion h2
    subst hii
    refine ⟨fun h2 => LockState.noConfusion h2,
      fun h2 => LockState.noConfusion h2, ?_,
      fun h2 => LockState.noConfusion h2⟩
    intro _
    refine ⟨i, by rw [hv], ?_, ?_⟩
    · intro j
      by_cases hji : j = i
      · subst hji
        simp [Function.update_same]
      · simp only [Function.update_noteq hji, hran j]
        simp [hji]
    · intro j
      by_cases hji : j = i
      · subst hji
        simp only [Function.update_same]
        exact Or.inr (Or.inr trivial)
      · simp only [Function.update_noteq hji]
        rcases hrest j hji with h2 | h2
        · exact Or.inl h2
        · exact Or.inr (Or.inl h2)
  | wake i hi hl =>
    obtain ⟨i0, hvv, hran, hphase⟩ := hm hl
    refine ⟨fun h2 => absurd (hl.symm.trans h2) (by decide),
      fun h2 => absurd (hl.symm.trans h2) (by decide), ?_,
      fun h2 => absurd (hl.symm.trans h2) (by decide)⟩
    intro _
    refine ⟨i0, hvv, hran, ?_⟩
    intro j
    by_cases hji : j = i
    · subst hji
      simp only [Function.update_same]
      exact Or.inr (Or.inr trivial)
    · simp only [Function.update_noteq hji]
      exact hphase j

theorem lockInv_reachable {n : Nat} {f : Fin n → T → T} {v : T}
    {s : LockSys n T} (h : LockReachable f (LockSys.init n v) s) :
    LockInv f v s := by
  induction h with
  | refl => exact lockInv_init n f v
  | tail _ hbc ih => exact lockInv_step ih hbc

theorem lockDemo_reachable :
    LockReachable lockSquare (LockSys.init 2 34) lockDemo4 := by
  refine Relation.ReflTransGen.head (LockStep.elect (LockSys.init 2 34) 0 rfl rfl) ?_
  refine Relation.ReflTransGen.head (LockStep.lose lockDemo1 1 (by decide) rfl) ?_
  refine Relation.ReflTransGen.head (LockStep.finish lockDemo2 0 (by decide)) ?_
  exact Relation.ReflTransGen.head (LockStep.wake lockDemo3 1 (by decide) rfl)
    Relation.ReflTransGen.refl

/-!
The claims.
-/

/-- C1: for every initial value `v` and mutation closure `m`,
`new(v).get_or_mutate(m)` invokes `m` exactly once on `v`, sets the latch to
mutated, and returns `m v`; any later `get_or_mutate` with any closure `g`
returns that same first result on the unchanged cell and never invokes `g`. -/
theorem c1_get_or_mutate_exactly_once (v : T) (m g : T → T) :
    ((InPlaceOnceCell.new v).get_or_mutate_invoked m).2 = 1 ∧
    (InPlaceOnceCell.new v).get_or_mutate m =
      ({ value := m v, is_mutated := true }, m v) ∧
    (({ value := m v, is_mutated := true } :
        InPlaceOnceCell T).get_or_mutate_invoked g).2 = 0 ∧
    ({ value := m v, is_mutated := true } :
        InPlaceOnceCell T).get_or_mutate g =
      ({ value := m v, is_mutated := true }, m v) := by
  refine ⟨?_, ?_, ?_, ?_⟩
  · rw [InPlaceOnceCell.get_or_mutate_invoked_snd]
    rfl
  · exact InPlaceOnceCell.get_or_mutate_of_unmutated rfl
  · rw [InPlaceOnceCell.get_or_mutate_invoked_snd]
    rfl
  · exact InPlaceOnceCell.get_or_mutate_of_mutated rfl

/-- C1 witness: squaring 34 once yields 1156, frozen; a later increment
closure is never invoked and 1156 is returned again. -/
theorem c1_get_or_mutate_exactly_once_witness :
    ((InPlaceOnceCell.new (34 : Nat)).get_or_mutate_invoked
      (fun x => x * x)).2 = 1 ∧
    (InPlaceOnceCell.new (34 : Nat)).get_or_mutate (fun x => x * x) =
      ({ value := 1156, is_mutated := true }, 1156) ∧
    (({ value := 1156, is_mutated := true } :
        InPlaceOnceCell Nat).get_or_mutate_invoked (fun x => x + 1)).2 = 0 ∧
    ({ value := 1156, is_mutated := true } :
        InPlaceOnceCell Nat).get_or_mutate (fun x => x + 1) =
      ({ value := 1156, is_mutated := true }, 1156) :=
  c1_get_or_mutate_exactly_once 34 (fun x => x * x) (fun x => x + 1)

/-- C2: in the interleaving model of `n` threads concurrently calling
`get_or_mutate` on one shared `InPlaceOnceLock` started at `v`, once every
caller has returned, the latch is mutated, exactly one thread ran its
closure, the frozen value is that closure applied once to `v`, and every
caller returned that same frozen value. -/
theorem c2_lock_exactly_once_election {n : Nat} (f : Fin n → T → T) (v : T)
    (s : LockSys n T) (hr : LockReachable f (LockSys.init n v) s)
    (hn : 0 < n) (hdone : ∀ j, ∃ r, s.threads j = ThreadPhase.done r) :
    s.latch = LockState.mutated ∧
    (∃ i, s.value = f i v ∧ ∀ j, s.ran j = true ↔ j = i) ∧
    ∀ j r, s.threads j = ThreadPhase.done r → r = s.value := by
  obtain ⟨hu, he, hm, hp⟩ := lockInv_reachable hr
  obtain ⟨r0, hr0⟩ := hdone ⟨0, hn⟩
  have hlatch : s.latch = LockState.mutated := by
    cases hl : s.latch with
    | unmutated =>
      have h2 := (hu hl).2.1 ⟨0, hn⟩
      rw [hr0] at h2
      exact ThreadPhase.noConfusion h2
    | electing =>
      obtain ⟨hv, hran, i0, hw, hrest⟩ := he hl
      by_cases h0 : (⟨0, hn⟩ : Fin n) = i0
      · rw [h0, hw] at hr0
        exact ThreadPhase.noConfusion hr0
      · rcases hrest _ h0 with h2 | h2 <;> rw [hr0] at h2 <;>
          exact ThreadPhase.noConfusion h2
    | mutated => rfl
    | poisoned => exact absurd hl hp
  obtain ⟨i0, hvv, hran, hphase⟩ := hm hlatch
  refine ⟨hlatch, ⟨i0, hvv, hran⟩, ?_⟩
  intro j r hj
  rcases hphase j with h2 | h2 | h2 <;> rw [hj] at h2
  · exact ThreadPhase.noConfusion h2
  · exact ThreadPhase.noConfusion h2
  · exact ThreadPhase.done.inj h2

/-- C2 witness: in the concrete two-thread run where both threads square the
value 34, both callers return, the lock holds 1156 = 34 squared (applied
exactly once, by exactly one thread), and both returned 1156. -/
theorem c2_lock_witness :
    lockDemo4.latch = LockState.mutated ∧
    (∃ i, lockDemo4.value = lockSquare i 34 ∧
      ∀ j, lockDemo4.ran j = true ↔ j = i) ∧
    (∀ j r, lockDemo4.threads j = ThreadPhase.done r → r = lockDemo4.value) ∧
    lockDemo4.value = 1156 :=
  ⟨(c2_lock_exactly_once_election lockSquare 34 lockDemo4 lockDemo_reachable
      (by decide) (fun j => ⟨1156, by fin_cases j <;> decide⟩)).1,
   (c2_lock_exactly_once_election lockSquare 34 lockDemo4 lockDemo_reachable
      (by decide) (fun j => ⟨1156, by fin_cases j <;> decide⟩)).2.1,
   (c2_lock_exactly_once_election lockSquare 34 lockDemo4 lockDemo_reachable
      (by decide) (fun j => ⟨1156, by fin_cases j <;> decide⟩)).2.2,
   by decide⟩

/-- C3: on an unmutated cell, a fallible closure that leaves value `w` and
fails with `e` makes `get_or_try_mutate` (and `get_mut_or_try_mutate`) return
`Err e` with the latch still unset and the value `w` retained, and a later
`get_or_try_mutate` with any closure `g` invokes `g` once, on `w`. -/
theorem c3_try_mutate_failure (c : InPlaceOnceCell T) (f : T → T × Option E)
    (w : T) (e : E) (hc : c.is_mutated = false)
    (hf : f c.value = (w, some e)) :
    c.get_or_try_mutate f =
      ({ value := w, is_mutated := false }, Except.error e) ∧
    c.get_mut_or_try_mutate f =
      ({ value := w, is_mutated := false }, Except.error e) ∧
    (∀ g : T → T × Option E,
      (({ value := w, is_mutated := false } :
          InPlaceOnceCell T).get_or_try_mutate_invoked g).2 = 1) ∧
    ∀ (g : T → T × Option E) (w2 : T), g w = (w2, none) →
      ({ value := w, is_mutated := false } :
          InPlaceOnceCell T).get_or_try_mutate g =
        ({ value := w2, is_mutated := true }, Except.ok w2) := by
  refine ⟨InPlaceOnceCell.get_or_try_mutate_err hc hf, ?_, ?_, ?_⟩
  · rw [InPlaceOnceCell.get_mut_or_try_mutate_eq_get_or_try_mutate]
    exact InPlaceOnceCell.get_or_try_mutate_err hc hf
  · intro g
    rw [InPlaceOnceCell.get_or_try_mutate_invoked_snd]
    rfl
  · intro g w2 hg
    exact InPlaceOnceCell.get_or_try_mutate_ok rfl hg

/-- C3 witness: concretely, incrementing 0 and failing yields `Err ()` with
value 1 and latch unset, and a retry closure is invoked (once). -/
theorem c3_try_mutate_failure_witness :
    (InPlaceOnceCell.new (0 : Nat)).get_or_try_mutate
        (fun x => (x + 1, some ())) =
      ({ value := 1, is_mutated := false }, Except.error ()) ∧
    (({ value := 1, is_mutated := false } :
        InPlaceOnceCell Nat).get_or_try_mutate_invoked
        (fun x => (x * 2, (none : Option Unit)))).2 = 1 :=
  have h := c3_try_mutate_failure (InPlaceOnceCell.new (0 : Nat))
    (fun x => (x + 1, some ())) 1 () rfl rfl
  ⟨h.1, h.2.2.1 (fun x => (x * 2, (none : Option Unit)))⟩

/-- C4 is false as stated: a cell reached by one `get_or_try_mutate` whose
closure increments the value and then fails has its latch unset and no
completed closure, yet its value 1 differs from the originally-constructed 0,
refuting "latch unmutated iff the value is exactly the original". -/
theorem c4_counterexample :
    (runHist (initHist (0 : Nat))
      [CellOp.callGetOrTryMutate (fun x => (x + 1, some ()))]).cell.is_mutated
      = false ∧
    (runHist (initHist (0 : Nat))
      [CellOp.callGetOrTryMutate (fun x => (x + 1, some ()))]).completed = 0 ∧
    ¬ (runHist (initHist (0 : Nat))
      [CellOp.callGetOrTryMutate (fun x => (x + 1, some ()))]).cell.value = 0
    := by
  refine ⟨rfl, rfl, by decide⟩

/-- C4 amended: in every reachable history, the latch is unset iff no
mutation closure has ever completed (the value may retain partial mutations
left by failed fallible closures), and the latch is set iff exactly one
closure ran to completion, in which case the value is that closure's
result. -/
theorem c4_latch_invariant (v : T) (ops : List (CellOp T E)) (h : CellHist T)
    (hh : h = runHist (initHist v) ops) :
    (h.cell.is_mutated = false ↔ h.completed = 0) ∧
    (h.cell.is_mutated = true ↔ h.completed = 1) ∧
    (h.cell.is_mutated = true → h.frozen = some h.cell.value) := by
  subst hh
  rcases histInv_run ops (histInv_init v) with ⟨h1, h2, h3⟩ | ⟨h1, h2, h3⟩
  · refine ⟨?_, ?_, ?_⟩ <;> simp [h1, h2, h3]
  · refine ⟨?_, ?_, ?_⟩ <;> simp [h1, h2, h3]

/-- C4 witness: after one completing closure on initial value 5, the frozen
record is exactly the cell's value. -/
theorem c4_latch_invariant_witness :
    (runHist (initHist (5 : Nat))
      [(CellOp.callGetOrMutate (fun x => x + 1) : CellOp Nat Unit)]).frozen =
    some (runHist (initHist (5 : Nat))
      [(CellOp.callGetOrMutate (fun x => x + 1) : CellOp Nat Unit)]).cell.value
    :=
  (c4_latch_invariant 5
    [(CellOp.callGetOrMutate (fun x => x + 1) : CellOp Nat Unit)]
    (runHist (initHist 5)
      [(CellOp.callGetOrMutate (fun x => x + 1) : CellOp Nat Unit)])
    rfl).2.2 rfl

/-- C5: the latch is monotone — a new cell starts unmutated, any single call
either leaves the latch unchanged or raises it to mutated, and no run of
calls ever moves a mutated latch back to unmutated. -/
theorem c5_latch_monotone (v : T) (c : InPlaceOnceCell T) (op : CellOp T E)
    (ops : List (CellOp T E)) (h : CellHist T) :
    (InPlaceOnceCell.new v).is_mutated = false ∧
    ((op.apply c).is_mutated = c.is_mutated ∨
      ((op.apply c).is_mutated = true ∧ c.is_mutated = false)) ∧
    (h.cell.is_mutated = true → (runHist h ops).cell.is_mutated = true) :=
  ⟨rfl, CellOp.apply_latch c op, fun hm => run_latch_mono ops hm⟩

/-- C5 witness: a mutated cell stays mutated across a further call. -/
theorem c5_latch_monotone_witness :
    (runHist
      ({ cell := { value := 7, is_mutated := true }, completed := 1,
         frozen := some 7 } : CellHist Nat)
      [(CellOp.callGetOrMutate (fun x => x + 1) : CellOp Nat Unit)]).cell.is_mutated = true :=
  (c5_latch_monotone 0
    ({ value := 7, is_mutated := true } : InPlaceOnceCell Nat)
    (CellOp.callGet : CellOp Nat Unit)
    [(CellOp.callGetOrMutate (fun x => x + 1) : CellOp Nat Unit)]
    ({ cell := { value := 7, is_mutated := true }, completed := 1,
       frozen := some 7 } : CellHist Nat)).2.2 rfl

/-- C6: `get` returns `some` of the stored value iff the latch is set and
`none` otherwise; `get_mut` returns exactly the same; and neither call
changes the cell (both are latch- and value-preserving pure queries). -/
theorem c6_get_pure_queries (c : InPlaceOnceCell T) (x : T) :
    (c.get = some x ↔ c.is_mutated = true ∧ x = c.value) ∧
    (c.get = none ↔ c.is_mutated = false) ∧
    c.get_mut = c.get ∧
    (CellOp.callGet : CellOp T E).apply c = c ∧
    (CellOp.callGetMut : CellOp T E).apply c = c := by
  refine ⟨?_, ?_, rfl, rfl, rfl⟩
  · cases hm : c.is_mutated <;> simp [InPlaceOnceCell.get, hm, eq_comm]
  · cases hm : c.is_mutated <;> simp [InPlaceOnceCell.get, hm]

/-- C6 witness: on a concrete mutated cell holding 5, `get` is `some 5`,
`get_mut` agrees, and neither call changes the cell. -/
theorem c6_get_pure_queries_witness :
    (({ value := 5, is_mutated := true } : InPlaceOnceCell Nat).get = some 5 ↔
      ({ value := 5, is_mutated := true } :
        InPlaceOnceCell Nat).is_mutated = true ∧
      (5 : Nat) = ({ value := 5, is_mutated := true } :
        InPlaceOnceCell Nat).value) ∧
    (({ value := 5, is_mutated := true } : InPlaceOnceCell Nat).get = none ↔
      ({ value := 5, is_mutated := true } :
        InPlaceOnceCell Nat).is_mutated = false) ∧
    ({ value := 5, is_mutated := true } : InPlaceOnceCell Nat).get_mut =
      ({ value := 5, is_mutated := true } : InPlaceOnceCell Nat).get ∧
    (CellOp.callGet : CellOp Nat Unit).apply
      { value := 5, is_mutated := true } =
      { value := 5, is_mutated := true } ∧
    (CellOp.callGetMut : CellOp Nat Unit).apply
      { value := 5, is_mutated := true } =
      { value := 5, is_mutated := true } :=
  c6_get_pure_queries ({ value := 5, is_mutated := true } :
    InPlaceOnceCell Nat) 5

/-- C7: two cells compare equal iff their `get` results are equal, and two
unmutated cells are always equal regardless of their differing values. -/
theorem c7_eq_observational [BEq T] [LawfulBEq T] (a b : InPlaceOnceCell T) :
    (a.eq b = true ↔ a.get = b.get) ∧
    (a.is_mutated = false → b.is_mutated = false → a.eq b = true) := by
  constructor
  · simp [InPlaceOnceCell.eq]
  · intro ha hb
    simp [InPlaceOnceCell.eq, InPlaceOnceCell.get_of_unmutated ha,
      InPlaceOnceCell.get_of_unmutated hb]

/-- C7 witness: two fresh cells with different initial values compare
equal. -/
theorem c7_eq_observational_witness :
    (InPlaceOnceCell.new (34 : Nat)).eq (InPlaceOnceCell.new 1155) = true :=
  (c7_eq_observational (InPlaceOnceCell.new (34 : Nat))
    (InPlaceOnceCell.new 1155)).2 rfl rfl

/-- C8: `into_inner` consumes the cell and returns the stored value in any
latch state — the initial value on a never-mutated cell, the mutated value
after a successful mutation — and is total, so it never fails. -/
theorem c8_into_inner_any_state (v : T) (b : Bool) (m : T → T) :
    ({ value := v, is_mutated := b } : InPlaceOnceCell T).into_inner = v ∧
    (InPlaceOnceCell.new v).into_inner = v ∧
    ((InPlaceOnceCell.new v).get_or_mutate m).1.into_inner = m v := by
  refine ⟨rfl, rfl, ?_⟩
  rw [InPlaceOnceCell.get_or_mutate_of_unmutated rfl]
  rfl

/-- C8 witness: `into_inner` returns 34 from a mutated-latch cell holding 34,
returns 34 from a fresh cell, and returns 1156 after squaring. -/
theorem c8_into_inner_any_state_witness :
    ({ value := 34, is_mutated := true } : InPlaceOnceCell Nat).into_inner
      = 34 ∧
    (InPlaceOnceCell.new (34 : Nat)).into_inner = 34 ∧
    ((InPlaceOnceCell.new (34 : Nat)).get_or_mutate
      (fun x => x * x)).1.into_inner = 1156 :=
  c8_into_inner_any_state 34 true (fun x => x * x)

/-- C9: `get_mut_or_mutate` has the same value-level semantics as
`get_or_mutate` — identical resulting cell and identical designated value —
for every starting state and closure; likewise for the fallible pair. -/
theorem c9_get_mut_or_mutate_same_semantics (c : InPlaceOnceCell T)
    (f : T → T) (g : T → T × Option E) :
    c.get_mut_or_mutate f = c.get_or_mutate f ∧
    c.get_mut_or_try_mutate g = c.get_or_try_mutate g :=
  ⟨InPlaceOnceCell.get_mut_or_mutate_eq_get_or_mutate c f,
   InPlaceOnceCell.get_mut_or_try_mutate_eq_get_or_try_mutate c g⟩

/-- C9 witness: the exclusive and shared mutate operations coincide on a
concrete fresh cell with concrete closures. -/
theorem c9_get_mut_or_mutate_same_semantics_witness :
    (InPlaceOnceCell.new (34 : Nat)).get_mut_or_mutate (fun x => x * x) =
      (InPlaceOnceCell.new (34 : Nat)).get_or_mutate (fun x => x * x) ∧
    (InPlaceOnceCell.new (34 : Nat)).get_mut_or_try_mutate
        (fun x => (x + 1, (some () : Option Unit))) =
      (InPlaceOnceCell.new (34 : Nat)).get_or_try_mutate
        (fun x => (x + 1, (some () : Option Unit))) :=
  c9_get_mut_or_mutate_same_semantics (InPlaceOnceCell.new (34 : Nat))
    (fun x => x * x) (fun x => (x + 1, (some () : Option Unit)))

/-- C10: a fallible closure that rewrites the value to `w` and then fails
leaves the unmutated cell holding `w`, so a following `into_inner` returns
`w` — which differs from the constructed value whenever `w` does. -/
theorem c10_into_inner_partial_mutation (v w : T) (e : E)
    (f : T → T × Option E) (hf : f v = (w, some e)) :
    ((InPlaceOnceCell.new v).get_or_try_mutate f).1.into_inner = w ∧
    (w ≠ v →
      ((InPlaceOnceCell.new v).get_or_try_mutate f).1.into_inner ≠ v) := by
  have h := InPlaceOnceCell.get_or_try_mutate_err
    (c := InPlaceOnceCell.new v) rfl hf
  rw [h]
  exact ⟨rfl, fun hw => hw⟩

/-- C10 witness: constructing with 34, zeroing the value and failing, then
consuming, returns 0 rather than 34. -/
theorem c10_into_inner_partial_mutation_witness :
    ((InPlaceOnceCell.new (34 : Nat)).get_or_try_mutate
        (fun _ => (0, some ()))).1.into_inner = 0 ∧
    ((InPlaceOnceCell.new (34 : Nat)).get_or_try_mutate
        (fun _ => (0, some ()))).1.into_inner ≠ 34 :=
  have h := c10_into_inner_partial_mutation 34 0 ()
    (fun _ => (0, some ())) rfl
  ⟨h.1, h.2 (by decide)⟩

end InPlaceOnce
